import Mathlib

/-!
Verification of the `lzenit.c` closure-pushing shim of the zenit repository.

The shim (`src/lua/src/lzenit.c`) consists of two functions:

* `pushlclosure_impl(L, proto)`: runs `luaC_checkGC(L)`, allocates a Lua
  closure with `luaF_newLclosure(L, 0, gt(L))`, sets its prototype field,
  writes the closure value into the stack slot at `L->top` and advances the
  stack-top pointer (`incr_top`).
* `luaZE_pushlclosure(L, proto)`: takes the interpreter lock, runs the above
  under `luaD_rawrunprotected`, releases the lock and returns `status == 0`.

The Lua runtime itself is an external collaborator (its source is not part of
this repository fragment); the primitives it supplies are modelled here from
the specification's description of their contracts.  The state model records
an event trace so that ordering properties (GC check before allocation, write
before top advance, lock/unlock balance) can be stated and proved.
-/

namespace Zenit

/-- A compiled function prototype: an immutable bytecode unit.  Its payload is
abstracted as a list of instruction words; the shim never inspects it. -/
structure Proto where
  code : List Nat
  deriving DecidableEq, Repr

/-- A Lua closure object: upvalue count, a reference to its captured
environment table, and a reference (index into the prototype store) to its
prototype.  `p = none` means the prototype field has not been set yet
(freshly allocated closure, before `cl->l.p = proto`). -/
structure Closure where
  nupvalues : Nat
  env : Nat
  p : Option Nat
  deriving DecidableEq, Repr

/-- A tagged Lua stack value.  The shim only ever writes closure values;
`nil` stands for any other initialized value. -/
inductive Value where
  | nil : Value
  | closure (ref : Nat) : Value
  deriving DecidableEq, Repr

/-- Observable events of one call, used to state ordering properties. -/
inductive Event where
  | lock : Event
  | unlock : Event
  | gcCheck : Event
  | alloc : Event
  | writeSlot (i : Nat) : Event
  | incrTop : Event
  deriving DecidableEq, Repr

/-- Internal faults that the protected-call mechanism can catch.  The only
fault this component can encounter is an out-of-memory condition. -/
inductive Fault where
  | oom : Fault
  deriving DecidableEq, Repr

/-- The status code produced for a caught fault; `4` is the runtime's
out-of-memory status.  Every fault maps to a non-zero status. -/
def statusOf : Fault → Nat
  | Fault.oom => 4

/-- The interpreter instance (`lua_State`).  The value stack is a
preallocated array of slots (`none` = uninitialized slot) together with a
top index; the heap is the list of collector-owned closures; `protos` is the
store of registered prototypes; `globalEnv` is the reference of the global
environment table.  `gcFault` and `allocBudget` are the fault-injection
knobs: they decide whether the GC pacing step, respectively the next
allocation, raises an out-of-memory fault. -/
structure LuaState where
  stack : List (Option Value)
  top : Nat
  heap : List Closure
  protos : List Proto
  globalEnv : Nat
  lockDepth : Nat
  gcFault : Bool
  allocBudget : Nat
  deriving DecidableEq, Repr

/-- Modelled from the spec: `gt(L)`, the interpreter's global environment
table (a long-lived, collector-owned object, referred to by reference). -/
def gt (L : LuaState) : Nat :=
  L.globalEnv

/-- Modelled from the spec: `luaC_checkGC`, the garbage collector's
incremental pacing step.  It performs collector bookkeeping (no change to
the observable state modelled here) and may raise an out-of-memory fault
while the collector runs; the fault-injection flag `gcFault` decides this. -/
def luaC_checkGC (L : LuaState) :
    Except (Fault × List Event) (LuaState × List Event) :=
  if L.gcFault then Except.error (Fault.oom, [])
  else Except.ok (L, [Event.gcCheck])

/-- Modelled from the spec: `luaF_newLclosure L nup env` allocates a new
closure object with `nup` captured-upvalue slots bound to environment `env`,
registers it with the collector (appends it to the heap) and returns its
reference.  The prototype field starts unset.  Allocation raises an
out-of-memory fault when the allocation budget is exhausted. -/
def luaF_newLclosure (L : LuaState) (nup : Nat) (env : Nat) :
    Except (Fault × List Event) (LuaState × Nat × List Event) :=
  if L.allocBudget = 0 then Except.error (Fault.oom, [])
  else
    Except.ok
      ({ L with
          heap := L.heap ++ [{ nupvalues := nup, env := env, p := none }],
          allocBudget := L.allocBudget - 1 },
        L.heap.length, [Event.alloc])

/-- Assignment `cl->l.p = proto`: set the prototype reference of the closure at heap
reference `ref` to `proto`. -/
def setClosureProto (L : LuaState) (ref : Nat) (proto : Nat) : LuaState :=
  { L with
      heap := L.heap.set ref
        { L.heap.getD ref { nupvalues := 0, env := 0, p := none } with
            p := some proto } }

/-- Modelled from the spec: `setclvalue(L->top, cl)` writes the closure value
into the stack slot at index `i` (the current top). -/
def setclvalue (L : LuaState) (i : Nat) (ref : Nat) : LuaState :=
  { L with stack := L.stack.set i (some (Value.closure ref)) }

/-- Modelled from the spec: `incr_top(L)` advances the stack-top pointer by
one slot. -/
def incr_top (L : LuaState) : LuaState :=
  { L with top := L.top + 1 }

/-- Function `pushlclosure_impl` from `lzenit.c`: GC pacing check, allocate a
zero-upvalue closure bound to the global environment, set its prototype,
write it at the stack top, advance the top.  A fault at any step aborts the
sequence, carrying the events that happened before the fault. -/
def pushlclosure_impl (L : LuaState) (proto : Nat) :
    Except (Fault × List Event) (LuaState × List Event) :=
  match luaC_checkGC L with
  | Except.error (f, ev) => Except.error (f, ev)
  | Except.ok (L1, ev1) =>
    match luaF_newLclosure L1 0 (gt L1) with
    | Except.error (f, ev) => Except.error (f, ev1 ++ ev)
    | Except.ok (L2, ref, ev2) =>
      let L3 := setClosureProto L2 ref proto
      let L4 := setclvalue L3 L3.top ref
      let L5 := incr_top L4
      Except.ok (L5, ev1 ++ ev2 ++ [Event.writeSlot L3.top, Event.incrTop])

/-- Modelled from the spec: `lua_lock`, scoped acquisition of the
interpreter's global execution lock. -/
def lua_lock (L : LuaState) : LuaState × List Event :=
  ({ L with lockDepth := L.lockDepth + 1 }, [Event.lock])

/-- Modelled from the spec: `lua_unlock`, release of the interpreter's
global execution lock. -/
def lua_unlock (L : LuaState) : LuaState × List Event :=
  ({ L with lockDepth := L.lockDepth - 1 }, [Event.unlock])

/-- Modelled from the spec: `luaD_rawrunprotected`, the protected-call
primitive.  It captures a restore point, invokes the operation, and on any
internal fault restores the interpreter state to the checkpoint and returns
the fault's non-zero status code; on success it returns status `0`. -/
def luaD_rawrunprotected (L : LuaState)
    (f : LuaState → Nat → Except (Fault × List Event) (LuaState × List Event))
    (ud : Nat) : LuaState × Nat × List Event :=
  match f L ud with
  | Except.ok (L2, ev) => (L2, 0, ev)
  | Except.error (fl, ev) => (L, statusOf fl, ev)

/-- Function `luaZE_pushlclosure` from `lzenit.c`: lock, run `pushlclosure_impl`
under the protected-call primitive, unlock, and return `status == 0`. -/
def luaZE_pushlclosure (L : LuaState) (proto : Nat) :
    Bool × LuaState × List Event :=
  let (L1, evA) := lua_lock L
  let (L2, status, evB) := luaD_rawrunprotected L1 pushlclosure_impl proto
  let (L3, evC) := lua_unlock L2
  (status == 0, L3, evA ++ evB ++ evC)

/-- The events of one run of the protected sequence, whether it succeeds or
faults midway. -/
def implEvents (L : LuaState) (proto : Nat) : List Event :=
  match pushlclosure_impl L proto with
  | Except.ok (_, ev) => ev
  | Except.error (_, ev) => ev

/-- Iterated pushing: `n` successive calls to `luaZE_pushlclosure` with the same prototype
handle; the boolean is `true` when every call succeeded, and the iteration
stops at the first failing call. -/
def pushN : Nat → LuaState → Nat → Bool × LuaState
  | 0, L, _ => (true, L)
  | n + 1, L, proto =>
    let r := luaZE_pushlclosure L proto
    if r.1 then pushN n r.2.1 proto else (false, r.2.1)

/-- Every stack slot strictly below the top pointer holds an initialized
value. -/
def belowTopInit (L : LuaState) : Prop :=
  ∀ i < L.top, (L.stack.getD i none).isSome = true

instance (L : LuaState) : Decidable (belowTopInit L) := by
  unfold belowTopInit
  infer_instance

/-- A concrete interpreter instance used as a witness input: three free
stack slots, empty heap, one registered prototype, healthy collector and a
generous allocation budget. -/
def testState : LuaState :=
  { stack := [none, none, none], top := 0, heap := [], protos := [⟨[0]⟩],
    globalEnv := 7, lockDepth := 0, gcFault := false, allocBudget := 10 }

/-- A concrete interpreter instance whose next allocation is forced to fail
(exhausted allocation budget). -/
def oomState : LuaState :=
  { stack := [none, none, none], top := 0, heap := [], protos := [⟨[0]⟩],
    globalEnv := 7, lockDepth := 0, gcFault := false, allocBudget := 0 }

/-- Setting the element just past a list, written as a concatenation. -/
theorem set_concat_length {α : Type} (l : List α) (a b : α) :
    (l ++ [a]).set l.length b = l ++ [b] := by
  rw [List.set_append_right _ _ (Nat.le_refl _)]
  simp

/-- On a healthy interpreter (no injected GC fault, non-empty allocation
budget), `luaZE_pushlclosure` succeeds and its full effect is: one slot
written and the top advanced by one, one new zero-upvalue closure bound to
the global environment with the supplied prototype appended to the heap,
one allocation unit consumed, lock balanced, and the event trace
lock–gcCheck–alloc–write–advance–unlock. -/
theorem pushlclosure_success_eq (L : LuaState) (proto : Nat)
    (hgc : L.gcFault = false) (hb : L.allocBudget ≠ 0) :
    luaZE_pushlclosure L proto =
      (true,
        { L with
            stack := L.stack.set L.top (some (Value.closure L.heap.length)),
            top := L.top + 1,
            heap := L.heap ++ [{ nupvalues := 0, env := L.globalEnv, p := some proto }],
            allocBudget := L.allocBudget - 1 },
        [Event.lock, Event.gcCheck, Event.alloc,
          Event.writeSlot L.top, Event.incrTop, Event.unlock]) := by
  unfold luaZE_pushlclosure lua_lock lua_unlock luaD_rawrunprotected
    pushlclosure_impl luaC_checkGC luaF_newLclosure gt setClosureProto
    setclvalue incr_top
  simp [hgc, hb, set_concat_length]

/-- With an injected GC fault, the call fails, the state (checkpoint
rollback plus balanced lock) is exactly the input state, and the trace is
lock–unlock. -/
theorem pushlclosure_gcfault_eq (L : LuaState) (proto : Nat)
    (hgc : L.gcFault = true) :
    luaZE_pushlclosure L proto = (false, L, [Event.lock, Event.unlock]) := by
  cases L with
  | mk st tp hp pr ge ld gf ab =>
    simp only at hgc
    subst hgc
    unfold luaZE_pushlclosure lua_lock lua_unlock luaD_rawrunprotected
      pushlclosure_impl luaC_checkGC statusOf
    simp

/-- With an exhausted allocation budget, the call fails, the state rolls
back to the input state, and the trace is lock–gcCheck–unlock. -/
theorem pushlclosure_oom_eq (L : LuaState) (proto : Nat)
    (hgc : L.gcFault = false) (hb : L.allocBudget = 0) :
    luaZE_pushlclosure L proto =
      (false, L, [Event.lock, Event.gcCheck, Event.unlock]) := by
  cases L with
  | mk st tp hp pr ge ld gf ab =>
    simp only at hgc hb
    subst hgc
    subst hb
    unfold luaZE_pushlclosure lua_lock lua_unlock luaD_rawrunprotected
      pushlclosure_impl luaC_checkGC luaF_newLclosure statusOf
    simp

/-- The call succeeds exactly when neither fault is injected. -/
theorem pushlclosure_true_iff (L : LuaState) (proto : Nat) :
    (luaZE_pushlclosure L proto).1 = true ↔
      L.gcFault = false ∧ L.allocBudget ≠ 0 := by
  constructor
  · intro h
    by_cases hgc : L.gcFault = true
    · rw [pushlclosure_gcfault_eq L proto hgc] at h
      simp at h
    · rw [Bool.not_eq_true] at hgc
      by_cases hb : L.allocBudget = 0
      · rw [pushlclosure_oom_eq L proto hgc hb] at h
        simp at h
      · exact ⟨hgc, hb⟩
  · intro ⟨hgc, hb⟩
    rw [pushlclosure_success_eq L proto hgc hb]

/-- Success of the inner protected sequence: explicit resulting state and
event trace. -/
theorem impl_success_eq (L : LuaState) (proto : Nat)
    (hgc : L.gcFault = false) (hb : L.allocBudget ≠ 0) :
    pushlclosure_impl L proto =
      Except.ok
        ({ L with
            stack := L.stack.set L.top (some (Value.closure L.heap.length)),
            top := L.top + 1,
            heap := L.heap ++ [{ nupvalues := 0, env := L.globalEnv, p := some proto }],
            allocBudget := L.allocBudget - 1 },
          [Event.gcCheck, Event.alloc, Event.writeSlot L.top, Event.incrTop]) := by
  unfold pushlclosure_impl luaC_checkGC luaF_newLclosure gt setClosureProto
    setclvalue incr_top
  simp [hgc, hb, set_concat_length]

/-- The inner sequence faults during the GC pacing step: no event yet. -/
theorem impl_gcfault_eq (L : LuaState) (proto : Nat)
    (hgc : L.gcFault = true) :
    pushlclosure_impl L proto = Except.error (Fault.oom, []) := by
  unfold pushlclosure_impl luaC_checkGC
  simp [hgc]

/-- The inner sequence faults at allocation: only the GC check happened. -/
theorem impl_oom_eq (L : LuaState) (proto : Nat)
    (hgc : L.gcFault = false) (hb : L.allocBudget = 0) :
    pushlclosure_impl L proto = Except.error (Fault.oom, [Event.gcCheck]) := by
  unfold pushlclosure_impl luaC_checkGC luaF_newLclosure
  simp [hgc, hb]

/-- C1: a call to `luaZE_pushlclosure` that returns `true` increases the
stack depth by exactly one, and the new top-of-stack value is a closure
value whose prototype reference equals the supplied prototype. -/
theorem c1_success_pushes_one_closure (L : LuaState) (proto : Nat)
    (hs : L.top < L.stack.length)
    (h : (luaZE_pushlclosure L proto).1 = true) :
    (luaZE_pushlclosure L proto).2.1.top = L.top + 1 ∧
    ∃ ref,
      (luaZE_pushlclosure L proto).2.1.stack.getD
          ((luaZE_pushlclosure L proto).2.1.top - 1) none
        = some (Value.closure ref) ∧
      ((luaZE_pushlclosure L proto).2.1.heap.getD ref
          { nupvalues := 0, env := 0, p := none }).p = some proto := by
  obtain ⟨hgc, hb⟩ := (pushlclosure_true_iff L proto).mp h
  rw [pushlclosure_success_eq L proto hgc hb]
  refine ⟨rfl, L.heap.length, ?_, ?_⟩
  · simp [List.getD_eq_getElem?_getD, List.getElem?_set_self hs]
  · simp [List.getD_eq_getElem?_getD, List.getElem?_concat_length]

/-- Closed witness for C1 on a concrete healthy interpreter state. -/
theorem c1_success_pushes_one_closure_witness :
    testState.top < testState.stack.length ∧
    (luaZE_pushlclosure testState 0).1 = true ∧
    ((luaZE_pushlclosure testState 0).2.1.top = testState.top + 1 ∧
      ∃ ref,
        (luaZE_pushlclosure testState 0).2.1.stack.getD
            ((luaZE_pushlclosure testState 0).2.1.top - 1) none
          = some (Value.closure ref) ∧
        ((luaZE_pushlclosure testState 0).2.1.heap.getD ref
            { nupvalues := 0, env := 0, p := none }).p = some 0) :=
  ⟨by decide, by decide,
    c1_success_pushes_one_closure testState 0 (by decide) (by decide)⟩

/-- C2: the call returns `true` exactly when the protected-call primitive
reports the success status `0`; every non-zero status yields `false`. -/
theorem c2_result_iff_status_zero (L : LuaState) (proto : Nat) :
    (luaZE_pushlclosure L proto).1 = true ↔
      (luaD_rawrunprotected (lua_lock L).1 pushlclosure_impl proto).2.1 = 0 := by
  by_cases hgc : L.gcFault = true
  · rw [pushlclosure_gcfault_eq L proto hgc]
    unfold luaD_rawrunprotected
    rw [impl_gcfault_eq _ proto (by simpa [lua_lock] using hgc)]
    simp [statusOf]
  · rw [Bool.not_eq_true] at hgc
    by_cases hb : L.allocBudget = 0
    · rw [pushlclosure_oom_eq L proto hgc hb]
      unfold luaD_rawrunprotected
      rw [impl_oom_eq _ proto (by simpa [lua_lock] using hgc)
        (by simpa [lua_lock] using hb)]
      simp [statusOf]
    · rw [pushlclosure_success_eq L proto hgc hb]
      unfold luaD_rawrunprotected
      rw [impl_success_eq _ proto (by simpa [lua_lock] using hgc)
        (by simpa [lua_lock] using hb)]
      simp

/-- C3: whenever the call returns `false`, the interpreter state — in
particular the stack-top pointer — is exactly what it was before the call:
the failing call pushes no slot and leaves no partial state. -/
theorem c3_failure_leaves_state_unchanged (L : LuaState) (proto : Nat)
    (h : (luaZE_pushlclosure L proto).1 = false) :
    (luaZE_pushlclosure L proto).2.1 = L ∧
    (luaZE_pushlclosure L proto).2.1.top = L.top := by
  by_cases hgc : L.gcFault = true
  · rw [pushlclosure_gcfault_eq L proto hgc]
    exact ⟨rfl, rfl⟩
  · rw [Bool.not_eq_true] at hgc
    by_cases hb : L.allocBudget = 0
    · rw [pushlclosure_oom_eq L proto hgc hb]
      exact ⟨rfl, rfl⟩
    · rw [pushlclosure_success_eq L proto hgc hb] at h
      simp at h

/-- Closed witness for C3: a forced allocation failure (exhausted budget)
returns `false` and leaves the state untouched. -/
theorem c3_failure_leaves_state_unchanged_witness :
    (luaZE_pushlclosure oomState 0).1 = false ∧
    ((luaZE_pushlclosure oomState 0).2.1 = oomState ∧
      (luaZE_pushlclosure oomState 0).2.1.top = oomState.top) :=
  ⟨by decide, c3_failure_leaves_state_unchanged oomState 0 (by decide)⟩

/-- C4: any internal fault raised during the protected sequence is caught
by the protected-call primitive and converted into its non-zero status
code, and the call still returns normally with the boolean `false` — no
fault propagates across the foreign-function boundary. -/
theorem c4_fault_converted_to_status (L : LuaState) (proto : Nat)
    (f : Fault) (ev : List Event)
    (h : pushlclosure_impl (lua_lock L).1 proto = Except.error (f, ev)) :
    statusOf f ≠ 0 ∧
    (luaD_rawrunprotected (lua_lock L).1 pushlclosure_impl proto).2.1
      = statusOf f ∧
    (luaZE_pushlclosure L proto).1 = false := by
  refine ⟨by cases f; simp [statusOf], ?_, ?_⟩
  · unfold luaD_rawrunprotected
    rw [h]
  · by_contra hres
    rw [Bool.not_eq_false] at hres
    obtain ⟨hgc, hb⟩ := (pushlclosure_true_iff L proto).mp hres
    rw [impl_success_eq _ proto (by simpa [lua_lock] using hgc)
      (by simpa [lua_lock] using hb)] at h
    exact absurd h (by simp)

/-- Closed witness for C4: the forced-allocation-failure state faults inside
the protected sequence, and the fault is converted to status `4` with
result `false`. -/
theorem c4_fault_converted_to_status_witness :
    pushlclosure_impl (lua_lock oomState).1 0
      = Except.error (Fault.oom, [Event.gcCheck]) ∧
    (statusOf Fault.oom ≠ 0 ∧
      (luaD_rawrunprotected (lua_lock oomState).1 pushlclosure_impl 0).2.1
        = statusOf Fault.oom ∧
      (luaZE_pushlclosure oomState 0).1 = false) :=
  ⟨by rfl,
    c4_fault_converted_to_status oomState 0 Fault.oom [Event.gcCheck]
      (by rfl)⟩

/-- C5: in every execution of the protected sequence, any allocation event
is strictly preceded by a GC pacing-check event: no allocation by this
component precedes the collector bookkeeping step. -/
theorem c5_gc_check_before_alloc (L : LuaState) (proto : Nat) (i : Nat)
    (h : (implEvents L proto)[i]? = some Event.alloc) :
    ∃ j < i, (implEvents L proto)[j]? = some Event.gcCheck := by
  by_cases hgc : L.gcFault = true
  · rw [implEvents, impl_gcfault_eq L proto hgc] at h
    simp at h
  · rw [Bool.not_eq_true] at hgc
    by_cases hb : L.allocBudget = 0
    · rw [implEvents, impl_oom_eq L proto hgc hb] at h
      rcases i with _ | i
      · simp at h
      · simp at h
    · rw [implEvents, impl_success_eq L proto hgc hb] at h
      rw [implEvents, impl_success_eq L proto hgc hb]
      rcases i with _ | _ | _ | _ | i
      · simp at h
      · exact ⟨0, by omega, rfl⟩
      · simp at h
      · simp at h
      · simp at h

/-- Closed witness for C5: in the healthy run the allocation event sits at
index 1 and the GC check at index 0. -/
theorem c5_gc_check_before_alloc_witness :
    (implEvents testState 0)[1]? = some Event.alloc ∧
    ∃ j < 1, (implEvents testState 0)[j]? = some Event.gcCheck :=
  ⟨by decide, c5_gc_check_before_alloc testState 0 1 (by decide)⟩

/-- C6: every closure constructed by a successful call has exactly zero
captured-upvalue slots, its environment reference is the interpreter's
global environment table `gt L` (shared by reference), and its prototype
field is the supplied prototype; exactly one object was added to the
heap. -/
theorem c6_closure_shape (L : LuaState) (proto : Nat)
    (h : (luaZE_pushlclosure L proto).1 = true) :
    (luaZE_pushlclosure L proto).2.1.heap.length = L.heap.length + 1 ∧
    (luaZE_pushlclosure L proto).2.1.heap.getD L.heap.length
        { nupvalues := 1, env := 0, p := none }
      = { nupvalues := 0, env := gt L, p := some proto } := by
  obtain ⟨hgc, hb⟩ := (pushlclosure_true_iff L proto).mp h
  rw [pushlclosure_success_eq L proto hgc hb]
  refine ⟨by simp, ?_⟩
  simp [List.getD_eq_getElem?_getD, List.getElem?_concat_length, gt]

/-- Closed witness for C6 on the concrete healthy state. -/
theorem c6_closure_shape_witness :
    (luaZE_pushlclosure testState 0).1 = true ∧
    ((luaZE_pushlclosure testState 0).2.1.heap.length
        = testState.heap.length + 1 ∧
      (luaZE_pushlclosure testState 0).2.1.heap.getD testState.heap.length
          { nupvalues := 1, env := 0, p := none }
        = { nupvalues := 0, env := gt testState, p := some 0 }) :=
  ⟨by decide, c6_closure_shape testState 0 (by decide)⟩

/-- C7: the call never mutates the prototype store — whatever the outcome,
every registered prototype is byte-for-byte identical before and after. -/
theorem c7_prototype_not_mutated (L : LuaState) (proto : Nat) :
    (luaZE_pushlclosure L proto).2.1.protos = L.protos := by
  by_cases hgc : L.gcFault = true
  · rw [pushlclosure_gcfault_eq L proto hgc]
  · rw [Bool.not_eq_true] at hgc
    by_cases hb : L.allocBudget = 0
    · rw [pushlclosure_oom_eq L proto hgc hb]
    · rw [pushlclosure_success_eq L proto hgc hb]

/-- C9: on every exit path — success or failure — the event trace of the
call starts with exactly one lock acquisition, ends with exactly one lock
release, and the lock depth after the call equals the lock depth before
it. -/
theorem c9_lock_balanced (L : LuaState) (proto : Nat) :
    ((luaZE_pushlclosure L proto).2.2).head? = some Event.lock ∧
    ((luaZE_pushlclosure L proto).2.2).getLast? = some Event.unlock ∧
    ((luaZE_pushlclosure L proto).2.2).count Event.lock = 1 ∧
    ((luaZE_pushlclosure L proto).2.2).count Event.unlock = 1 ∧
    (luaZE_pushlclosure L proto).2.1.lockDepth = L.lockDepth := by
  by_cases hgc : L.gcFault = true
  · rw [pushlclosure_gcfault_eq L proto hgc]
    refine ⟨rfl, rfl, rfl, rfl, rfl⟩
  · rw [Bool.not_eq_true] at hgc
    by_cases hb : L.allocBudget = 0
    · rw [pushlclosure_oom_eq L proto hgc hb]
      refine ⟨rfl, rfl, rfl, rfl, rfl⟩
    · rw [pushlclosure_success_eq L proto hgc hb]
      refine ⟨rfl, rfl, ?_, ?_, rfl⟩
      · simp [List.count_cons]
      · simp [List.count_cons]

/-- C10: in the push sequence the closure value is written into the slot at
the current stack top strictly before the top pointer is advanced.  Every
intermediate state of the sequence keeps all slots below the top pointer
initialized: after allocation the stack is untouched, after the write the
slot at the (not yet advanced) top holds the closure value, and only then
is the top advanced, so the top pointer never passes an unwritten slot.
In the event trace, the write event strictly precedes the advance event. -/
theorem c10_write_before_advance (L : LuaState) (proto : Nat)
    (hs : L.top < L.stack.length) (hinit : belowTopInit L)
    (hgc : L.gcFault = false) (hb : L.allocBudget ≠ 0) :
    ∃ L2 ref,
      luaF_newLclosure L 0 (gt L) = Except.ok (L2, ref, [Event.alloc]) ∧
      belowTopInit L2 ∧
      belowTopInit (setClosureProto L2 ref proto) ∧
      ((setclvalue (setClosureProto L2 ref proto)
            (setClosureProto L2 ref proto).top ref).stack.getD
          (setclvalue (setClosureProto L2 ref proto)
            (setClosureProto L2 ref proto).top ref).top none
        = some (Value.closure ref)) ∧
      belowTopInit (setclvalue (setClosureProto L2 ref proto)
        (setClosureProto L2 ref proto).top ref) ∧
      belowTopInit (incr_top (setclvalue (setClosureProto L2 ref proto)
        (setClosureProto L2 ref proto).top ref)) ∧
      ∀ S ev, pushlclosure_impl L proto = Except.ok (S, ev) →
        belowTopInit S ∧
        ∃ i j : Nat, i < j ∧ ev[i]? = some (Event.writeSlot L.top) ∧
          ev[j]? = some Event.incrTop := by
  refine
    ⟨{ L with
        heap := L.heap ++ [{ nupvalues := 0, env := L.globalEnv, p := none }],
        allocBudget := L.allocBudget - 1 },
      L.heap.length, ?_, ?_, ?_, ?_, ?_, ?_, ?_⟩
  · unfold luaF_newLclosure gt
    simp [hb]
  · exact hinit
  · exact hinit
  · simp [setclvalue, setClosureProto, List.getD_eq_getElem?_getD,
      List.getElem?_set_self hs]
  · intro i hi
    simp only [setclvalue, setClosureProto] at hi ⊢
    rw [List.getD_eq_getElem?_getD, List.getElem?_set_ne (by omega)]
    simpa [List.getD_eq_getElem?_getD] using hinit i hi
  · intro i hi
    simp only [incr_top, setclvalue, setClosureProto] at hi ⊢
    rcases Nat.lt_or_ge i L.top with hlt | hge
    · rw [List.getD_eq_getElem?_getD, List.getElem?_set_ne (by omega)]
      simpa [List.getD_eq_getElem?_getD] using hinit i hlt
    · have : i = L.top := by omega
      subst this
      rw [List.getD_eq_getElem?_getD, List.getElem?_set_self hs]
      rfl
  · intro S ev hok
    rw [impl_success_eq L proto hgc hb] at hok
    obtain ⟨hS, hev⟩ := Prod.mk.injEq .. ▸ (Except.ok.injEq _ _ ▸ hok)
    constructor
    · intro i hi
      rw [← hS] at hi ⊢
      simp only at hi
      rcases Nat.lt_or_ge i L.top with hlt | hge
      · simp only
        rw [List.getD_eq_getElem?_getD, List.getElem?_set_ne (by omega)]
        simpa [List.getD_eq_getElem?_getD] using hinit i hlt
      · have : i = L.top := by omega
        subst this
        simp only
        rw [List.getD_eq_getElem?_getD, List.getElem?_set_self hs]
        rfl
    · exact ⟨2, 3, by omega, by rw [← hev]; rfl, by rw [← hev]; rfl⟩

/-- Closed witness for C10 on the concrete healthy state. -/
theorem c10_write_before_advance_witness :
    (testState.top < testState.stack.length ∧ belowTopInit testState ∧
      testState.gcFault = false ∧ testState.allocBudget ≠ 0) ∧
    ∃ L2 ref,
      luaF_newLclosure testState 0 (gt testState)
        = Except.ok (L2, ref, [Event.alloc]) ∧
      belowTopInit L2 ∧
      belowTopInit (setClosureProto L2 ref 0) ∧
      ((setclvalue (setClosureProto L2 ref 0)
            (setClosureProto L2 ref 0).top ref).stack.getD
          (setclvalue (setClosureProto L2 ref 0)
            (setClosureProto L2 ref 0).top ref).top none
        = some (Value.closure ref)) ∧
      belowTopInit (setclvalue (setClosureProto L2 ref 0)
        (setClosureProto L2 ref 0).top ref) ∧
      belowTopInit (incr_top (setclvalue (setClosureProto L2 ref 0)
        (setClosureProto L2 ref 0).top ref)) ∧
      ∀ S ev, pushlclosure_impl testState 0 = Except.ok (S, ev) →
        belowTopInit S ∧
        ∃ i j : Nat, i < j ∧ ev[i]? = some (Event.writeSlot testState.top) ∧
          ev[j]? = some Event.incrTop :=
  ⟨⟨by decide, by decide, by decide, by decide⟩,
    c10_write_before_advance testState 0 (by decide) (by decide)
      (by decide) (by decide)⟩

/-- Full characterization of `n` successful pushes: the top advances by
`n`, the heap grows by `n`, everything below the original top and every
pre-existing heap object is untouched, slot `top + i` holds a closure value
referencing heap object `heapLength + i`, and each of those `n` new heap
objects is a zero-upvalue closure over the global environment sharing the
same supplied prototype. -/
theorem pushN_success_char (n : Nat) : ∀ (L : LuaState) (proto : Nat),
    L.top + n ≤ L.stack.length →
    (pushN n L proto).1 = true →
    (pushN n L proto).2.top = L.top + n ∧
    (pushN n L proto).2.heap.length = L.heap.length + n ∧
    (pushN n L proto).2.globalEnv = L.globalEnv ∧
    (∀ k < L.top,
      (pushN n L proto).2.stack.getD k none = L.stack.getD k none) ∧
    (∀ k < L.heap.length,
      (pushN n L proto).2.heap.getD k { nupvalues := 0, env := 0, p := none }
        = L.heap.getD k { nupvalues := 0, env := 0, p := none }) ∧
    (∀ i < n,
      (pushN n L proto).2.stack.getD (L.top + i) none
        = some (Value.closure (L.heap.length + i))) ∧
    (∀ i < n,
      (pushN n L proto).2.heap.getD (L.heap.length + i)
          { nupvalues := 0, env := 0, p := none }
        = { nupvalues := 0, env := L.globalEnv, p := some proto }) := by
  induction n with
  | zero =>
    intro L proto hs h
    refine ⟨by simp [pushN], by simp [pushN], by simp [pushN],
      fun k _ => by simp [pushN], fun k _ => by simp [pushN],
      fun i hi => absurd hi (by omega), fun i hi => absurd hi (by omega)⟩
  | succ n ih =>
    intro L proto hs h
    have hr : (luaZE_pushlclosure L proto).1 = true := by
      by_contra hr
      rw [Bool.not_eq_true] at hr
      rw [pushN] at h
      simp [hr] at h
    obtain ⟨hgc, hb⟩ := (pushlclosure_true_iff L proto).mp hr
    have hkey := pushlclosure_success_eq L proto hgc hb
    have hstep : pushN (n + 1) L proto =
        pushN n
          { L with
              stack := L.stack.set L.top (some (Value.closure L.heap.length)),
              top := L.top + 1,
              heap := L.heap ++
                [{ nupvalues := 0, env := L.globalEnv, p := some proto }],
              allocBudget := L.allocBudget - 1 } proto := by
      rw [pushN, hkey]
      simp
    rw [hstep] at h ⊢
    obtain ⟨htop, hhlen, hgenv, hsframe, hhframe, hslots, hentries⟩ :=
      ih { L with
            stack := L.stack.set L.top (some (Value.closure L.heap.length)),
            top := L.top + 1,
            heap := L.heap ++
              [{ nupvalues := 0, env := L.globalEnv, p := some proto }],
            allocBudget := L.allocBudget - 1 } proto
        (by simp; omega) h
    simp only [List.length_append, List.length_set, List.length_cons,
      List.length_nil] at htop hhlen hgenv hsframe hhframe hslots hentries
    refine ⟨by rw [htop]; omega, by rw [hhlen]; omega, by rw [hgenv], ?_, ?_,
      ?_, ?_⟩
    · intro k hk
      rw [hsframe k (by omega)]
      rw [List.getD_eq_getElem?_getD, List.getD_eq_getElem?_getD,
        List.getElem?_set_ne (by omega)]
    · intro k hk
      rw [hhframe k (by omega)]
      rw [List.getD_eq_getElem?_getD, List.getD_eq_getElem?_getD,
        List.getElem?_append_left (by omega)]
    · intro i hi
      rcases i with _ | i
      · simp only [Nat.add_zero]
        rw [hsframe L.top (by omega)]
        rw [List.getD_eq_getElem?_getD, List.getElem?_set_self (by omega)]
        rfl
      · have hidx : L.top + (i + 1) = (L.top + 1) + i := by omega
        have hidx2 : L.heap.length + (i + 1) = (L.heap.length + 1) + i := by
          omega
        rw [hidx, hidx2, hslots i (by omega)]
    · intro i hi
      rcases i with _ | i
      · simp only [Nat.add_zero]
        rw [hhframe L.heap.length (by omega)]
        rw [List.getD_eq_getElem?_getD, List.getElem?_concat_length]
        rfl
      · have hidx : L.heap.length + (i + 1) = (L.heap.length + 1) + i := by
          omega
        rw [hidx, hentries i (by omega)]

/-- C8: after `n` successive successful pushes of the same prototype, the
`n` new stack slots hold pairwise-distinct closure objects, each of whose
prototype reference is the same shared prototype. -/
theorem c8_repeated_pushes_share_prototype (n : Nat) (L : LuaState)
    (proto : Nat) (hs : L.top + n ≤ L.stack.length)
    (h : (pushN n L proto).1 = true) :
    (pushN n L proto).2.top = L.top + n ∧
    (∀ i < n,
      (pushN n L proto).2.stack.getD (L.top + i) none
        = some (Value.closure (L.heap.length + i)) ∧
      ((pushN n L proto).2.heap.getD (L.heap.length + i)
          { nupvalues := 0, env := 0, p := none }).p = some proto) ∧
    (∀ i < n, ∀ j < n, i ≠ j →
      (pushN n L proto).2.stack.getD (L.top + i) none
        ≠ (pushN n L proto).2.stack.getD (L.top + j) none) := by
  obtain ⟨htop, _, _, _, _, hslots, hentries⟩ :=
    pushN_success_char n L proto hs h
  refine ⟨htop, ?_, ?_⟩
  · intro i hi
    exact ⟨hslots i hi, by rw [hentries i hi]⟩
  · intro i hi j hj hne
    rw [hslots i hi, hslots j hj]
    simp
    omega

/-- Closed witness for C8: three successive pushes on the concrete healthy
state. -/
theorem c8_repeated_pushes_share_prototype_witness :
    (testState.top + 3 ≤ testState.stack.length ∧
      (pushN 3 testState 0).1 = true) ∧
    ((pushN 3 testState 0).2.top = testState.top + 3 ∧
      (∀ i < 3,
        (pushN 3 testState 0).2.stack.getD (testState.top + i) none
          = some (Value.closure (testState.heap.length + i)) ∧
        ((pushN 3 testState 0).2.heap.getD (testState.heap.length + i)
            { nupvalues := 0, env := 0, p := none }).p = some 0) ∧
      (∀ i < 3, ∀ j < 3, i ≠ j →
        (pushN 3 testState 0).2.stack.getD (testState.top + i) none
          ≠ (pushN 3 testState 0).2.stack.getD (testState.top + j) none)) :=
  ⟨⟨by decide, by decide⟩,
    c8_repeated_pushes_share_prototype 3 testState 0 (by decide) (by decide)⟩

end Zenit
